import Mathlib

/-!
# Verification of the Cue generative-art pipeline

Shallow embedding of the numeric core of the Cue repository
(`backend/art_generator.py` and `backend/noise_algorithms.py`) over ℚ,
together with theorems settling the frozen specification claims.

Python floating-point values are modelled as rationals; the few places
where a float operation can produce a NaN (0/0 during min-max
normalization) are modelled with `Option`, `none` standing for a
NaN-filled array.  Python `int(x)` truncation, `x % m` for positive `m`,
and `np.clip` are modelled by `pytrunc`, `pymod` and `pyclip` below.
Randomness (calls into `np.random`) is modelled by explicit streams of
draws passed as function arguments, and the process-wide random state of
`numpy` is modelled by an abstract state type threaded through the
generators.
-/

namespace Cue

/-- Python `int(x)` on a float: truncation toward zero. -/
def pytrunc (q : ℚ) : ℤ := if 0 ≤ q then ⌊q⌋ else -⌊-q⌋

/-- Python `x % m` on floats for a positive modulus `m`:
the representative of `x` in `[0, m)`. -/
def pymod (x m : ℚ) : ℚ := x - m * ⌊x / m⌋

/-- `np.clip(x, lo, hi) = minimum(maximum(x, lo), hi)`. -/
def pyclip (x lo hi : ℚ) : ℚ := min (max x lo) hi

/-! ## Reaction-diffusion (`NoiseGenerator.reaction_diffusion`)

A concentration field is a function of (row, column); dimensions are
carried separately, matching the `(height, width)` numpy shape. -/

/-- A dense 2D buffer of samples, indexed by (row, column). -/
def Grid : Type := ℕ → ℕ → ℚ

/-- `np.pad(f, 1, mode='edge')`: entry `(i, j)` of the padded array is the
edge-replicated source entry `(clamp (i-1), clamp (j-1))` (ℕ subtraction
already clamps at 0). -/
def padEdge (f : Grid) (h w : ℕ) : Grid :=
  fun i j => f (min (i - 1) (h - 1)) (min (j - 1) (w - 1))

/-- The Laplacian actually computed by `reaction_diffusion` from the
padded array `P`:
`P[0:-2,1:-1] + P[2:,1:-1] + P[1:-1,0:-2] + P[1:-1,2:] - 4*P[1:-1,1:-1]`
— the unweighted 5-point stencil over edge-replicated boundaries. -/
def laplacian (f : Grid) (h w : ℕ) : Grid :=
  fun i j =>
    let P := padEdge f h w
    P i (j + 1) + P (i + 2) (j + 1) + P (i + 1) j + P (i + 1) (j + 2) -
      4 * P (i + 1) (j + 1)

/-- Modelled from the spec: the 3×3 weighted Laplacian the spec claims
the update uses (corner weight 0.05, edge weight 0.2, center −1), with
the same edge-replicated boundary handling.  The source declares this
kernel (`kernel = np.array([[0.05, 0.2, 0.05], ...])`) but never applies
it. -/
def kernelLaplacian (f : Grid) (h w : ℕ) : Grid :=
  fun i j =>
    let P := padEdge f h w
    (1/20) * (P i j + P i (j + 2) + P (i + 2) j + P (i + 2) (j + 2)) +
      (1/5) * (P i (j + 1) + P (i + 1) j + P (i + 1) (j + 2) + P (i + 2) (j + 1)) +
      (-1) * P (i + 1) (j + 1)

/-- One explicit-Euler update of `reaction_diffusion` (`dt = 1`,
`dA = 1.0`, `dB = 0.5`, reaction `A·B²`, both fields clipped to [0,1]),
using the Laplacian the code actually computes. -/
def rdStep (A B : Grid) (h w : ℕ) (feed kill : ℚ) : Grid × Grid :=
  let A_lap := laplacian A h w
  let B_lap := laplacian B h w
  (fun i j =>
      pyclip (A i j + 1 * (1 * A_lap i j - A i j * B i j * B i j +
        feed * (1 - A i j))) 0 1,
   fun i j =>
      pyclip (B i j + 1 * ((1/2) * B_lap i j + A i j * B i j * B i j -
        (kill + feed) * B i j)) 0 1)

/-- 3×3 activator field with a single unit concentration at the center. -/
def centerB : Grid := fun i j => if i = 1 ∧ j = 1 then 1 else 0

/-- Constant-one inhibitor field (the code's initial `A`). -/
def onesA : Grid := fun _ _ => 1

/-! ## Height-map assembly (`ArtGenerator.generate_height_map`)

A height map is a list of rows.  The noise primitives
(`terrain_noise`, `value_noise`, `worley_noise`, `gradient_noise`) build
on transcendental functions (`exp`, `sin`, scipy filters) that have no
exact rational embedding, so the assembly logic is verified
parametrically in a `NoiseLib`: a record of field generators, each
consuming and returning the process-wide random state `σ` exactly as the
`np.random`-backed implementations do. -/

/-- A height map: a list of rows of samples. -/
def Field : Type := List (List ℚ)

/-- All samples of a field, row-major. -/
def fieldVals (f : Field) : List ℚ := List.flatten f

/-- Pointwise binary combination of two same-shape fields. -/
def fieldZip (op : ℚ → ℚ → ℚ) (f g : Field) : Field :=
  List.zipWith (List.zipWith op) f g

/-- The final re-normalization of `generate_height_map`:
`(base_map - base_map.min()) / (base_map.max() - base_map.min())`.
When the field is degenerate (`max == min`) every entry becomes the
float `0/0`, i.e. NaN — modelled as `none`.  (`np.min` of an empty
array raises, also modelled `none`; positive shapes never hit it.) -/
def normalize (f : Field) : Option Field :=
  match (fieldVals f).min?, (fieldVals f).max? with
  | some mn, some mx =>
      if mx = mn then none
      else some (f.map (List.map (fun v => (v - mn) / (mx - mn))))
  | _, _ => none

/-- The noise primitives consumed by `generate_height_map`, abstracted
over the process-wide random state `σ`.  Parameter order follows the
call sites: `terrain_noise shape n_hills min_radius max_radius`,
`value_noise shape grid_size`, `worley_noise shape n_points`. -/
structure NoiseLib (σ : Type) where
  gradient_noise : ℕ × ℕ → σ → Field × σ
  terrain_noise : ℕ × ℕ → ℤ → ℚ → ℚ → σ → Field × σ
  value_noise : ℕ × ℕ → ℤ → σ → Field × σ
  worley_noise : ℕ × ℕ → ℤ → σ → Field × σ

/-- The dispatch at the top of `generate_height_map`: pick the noise
algorithm by `noise_type` and derive its parameters from `energy`;
an unknown type raises `ValueError(f"Unknown noise type: ...")`. -/
def dispatchBase {σ : Type} (lib : NoiseLib σ) (shape : ℕ × ℕ)
    (energy : ℚ) (noise_type : String) (s : σ) :
    Except String (Field × σ) :=
  if noise_type = "gradient" then
    let g := lib.gradient_noise shape s
    let t := lib.terrain_noise shape 5 (1/5) (1/2) g.2
    .ok (fieldZip (fun a b => a * (3/5) + b * (2/5)) g.1 t.1, t.2)
  else if noise_type = "terrain" then
    .ok (lib.terrain_noise shape (pytrunc (10 + energy * 20))
      (1/20 + (1 - energy) * (1/10)) (1/5 + (1 - energy) * (3/10)) s)
  else if noise_type = "value" then
    .ok (lib.value_noise shape (pytrunc (4 + energy * 12)) s)
  else if noise_type = "worley" then
    .ok (lib.worley_noise shape (pytrunc (20 + energy * 80)) s)
  else .error ("Unknown noise type: " ++ noise_type)

/-- `ArtGenerator.generate_height_map`: dispatch, then for
`energy > 0.6` and terrain/value kinds blend in a secondary terrain
field at strength `(energy - 0.6) * 0.2`, then min-max normalize. -/
def generate_height_map {σ : Type} (lib : NoiseLib σ) (shape : ℕ × ℕ)
    (energy : ℚ) (noise_type : String) (s : σ) :
    Except String (Option Field) × σ :=
  match dispatchBase lib shape energy noise_type s with
  | .error e => (.error e, s)
  | .ok (base, s1) =>
    if 3/5 < energy ∧ (noise_type = "terrain" ∨ noise_type = "value") then
      let t := lib.terrain_noise shape (pytrunc (5 + energy * 10))
        (1/20) (3/20) s1
      let strength := (energy - 3/5) * (1/5)
      (.ok (normalize (fieldZip
        (fun a b => a * (1 - strength) + b * strength) base t.1)), t.2)
    else (.ok (normalize base), s1)

/-- Modelled from the spec: the blend the claim describes,
`base·(1−s) + secondary·s` applied pointwise. -/
def blendSpec (base secondary : Field) (s : ℚ) : Field :=
  fieldZip (fun a b => a * (1 - s) + b * s) base secondary

/-- A constant field of the given shape (rows, columns). -/
def constField (shape : ℕ × ℕ) (c : ℚ) : Field :=
  List.replicate shape.1 (List.replicate shape.2 c)

/-- A degenerate noise library: every generator returns the constant
mid-value field and leaves the random state unchanged.  On a 1×1 shape
every real generator output is necessarily constant, so this witnesses
the degenerate normalization path of `generate_height_map`. -/
def constLib : NoiseLib Unit where
  gradient_noise := fun shape s => (constField shape (1/2), s)
  terrain_noise := fun shape _ _ _ s => (constField shape (1/2), s)
  value_noise := fun shape _ s => (constField shape (1/2), s)
  worley_noise := fun shape _ s => (constField shape (1/2), s)

/-! ## Palette synthesis (`ArtGenerator.generate_color_palette`)

Key colors are sampled with three `np.random.uniform` draws each (hue,
saturation, brightness jitter); the stream of draws is modelled by a
function from the key index to the jitter triple. -/

/-- An RGB color stop; channels are the Python `int(...)` results. -/
def Color : Type := ℤ × ℤ × ℤ

/-- `colorsys.hsv_to_rgb`.  The final branch covers `i % 6 == 5`
(`i % 6` always lies in `[0, 6)`, so the cases are exhaustive exactly as
in the Python source). -/
def hsv_to_rgb (h s v : ℚ) : ℚ × ℚ × ℚ :=
  if s = 0 then (v, v, v)
  else
    let i := pytrunc (h * 6)
    let f := h * 6 - i
    let p := v * (1 - s)
    let q := v * (1 - s * f)
    let t := v * (1 - s * (1 - f))
    let im := i.emod 6
    if im = 0 then (v, t, p)
    else if im = 1 then (q, v, p)
    else if im = 2 then (p, v, t)
    else if im = 3 then (p, q, v)
    else if im = 4 then (t, p, q)
    else (q, p, v)

/-- `colorsys.rgb_to_hsv`. -/
def rgb_to_hsv (r g b : ℚ) : ℚ × ℚ × ℚ :=
  let maxc := max r (max g b)
  let minc := min r (min g b)
  let v := maxc
  if minc = maxc then (0, 0, v)
  else
    let s := (maxc - minc) / maxc
    let rc := (maxc - r) / (maxc - minc)
    let gc := (maxc - g) / (maxc - minc)
    let bc := (maxc - b) / (maxc - minc)
    let h := if r = maxc then bc - gc
             else if g = maxc then 2 + rc - bc
             else 4 + gc - rc
    (pymod (h / 6) 1, s, v)

/-- The temperature band selected from `positiveness`:
`(hue_min, hue_max, saturation_base, brightness_base)`. -/
def bandOf (positiveness : ℚ) : ℚ × ℚ × ℚ × ℚ :=
  if positiveness < 33/100 then (180, 280, 3/5, 7/10)
  else if positiveness < 66/100 then (60, 180, 2/5, 3/5)
  else (0, 60, 7/10, 4/5)

/-- `n_colors = 3 if conflictness > 0.3 else 2`. -/
def nColors (conflictness : ℚ) : ℕ := if 3/10 < conflictness then 3 else 2

/-- One iteration of the key-color loop: position the color in the hue
band (2 colors at 25%/75%, otherwise evenly from 0% to 100%), add the
jitter draws, wrap the hue mod 360, clamp saturation to [0.2, 0.9] and
brightness to [0.3, 0.95], convert HSV→RGB and scale to 8-bit. -/
def makeKeyColor (band : ℚ × ℚ × ℚ × ℚ) (n i : ℕ) (j : ℚ × ℚ × ℚ) : Color :=
  let t : ℚ := if n = 2 then (if i = 0 then 1/4 else 3/4)
               else (i : ℚ) / ((n : ℚ) - 1)
  let hue := pymod (band.1 + t * (band.2.1 - band.1) + j.1) 360
  let sat := pyclip (band.2.2.1 + j.2.1) (1/5) (9/10)
  let bri := pyclip (band.2.2.2 + j.2.2) (3/10) (19/20)
  let c := hsv_to_rgb (hue / 360) sat bri
  (pytrunc (c.1 * 255), pytrunc (c.2.1 * 255), pytrunc (c.2.2 * 255))

/-- The key-color loop of `generate_color_palette`. -/
def keyColorsRaw (positiveness conflictness : ℚ)
    (jit : ℕ → ℚ × ℚ × ℚ) : List Color :=
  (List.range (nColors conflictness)).map
    (fun i => makeKeyColor (bandOf positiveness) (nColors conflictness) i (jit i))

/-- The high-conflictness recoloring of `key_colors[mid_idx]`:
RGB→HSV on the stored 8-bit triple, `h = (h + 0.15) % 1.0`,
`s = min(s * 1.3, 0.9)`, HSV→RGB, back to 8-bit. -/
def shiftColor (c : Color) : Color :=
  let hsv := rgb_to_hsv ((c.1 : ℚ) / 255) ((c.2.1 : ℚ) / 255) ((c.2.2 : ℚ) / 255)
  let hue := pymod (hsv.1 + 15/100) 1
  let sat := min (hsv.2.1 * (13/10)) (9/10)
  let rgb := hsv_to_rgb hue sat hsv.2.2
  (pytrunc (rgb.1 * 255), pytrunc (rgb.2.1 * 255), pytrunc (rgb.2.2 * 255))

/-- Modelled from the spec: the claimed middle-key perturbation — from
the pre-shift HSV value of the key, shift the hue by +0.15 turn modulo
1.0, multiply the saturation by 1.3 capped at 0.9, keep the brightness
unchanged. -/
def middleShiftSpec (c : Color) : Color :=
  let hsv := rgb_to_hsv ((c.1 : ℚ) / 255) ((c.2.1 : ℚ) / 255) ((c.2.2 : ℚ) / 255)
  let hue := pymod (hsv.1 + 15/100) 1
  let sat := min (hsv.2.1 * (13/10)) (9/10)
  let bri := hsv.2.2
  let rgb := hsv_to_rgb hue sat bri
  (pytrunc (rgb.1 * 255), pytrunc (rgb.2.1 * 255), pytrunc (rgb.2.2 * 255))

/-- The `if conflictness > 0.6 and n_colors == 3` block: replace
`key_colors[len(key_colors) // 2]` with its shifted variant. -/
def perturbKeys (conflictness : ℚ) (n : ℕ) (keys : List Color) : List Color :=
  if 3/5 < conflictness ∧ n = 3 then
    let mid := keys.length / 2
    keys.set mid (shiftColor (keys.getD mid (0, 0, 0)))
  else keys

/-- The smoothstep curve `t·t·(3 − 2·t)` applied to each gradient step. -/
def smoothstep (t : ℚ) : ℚ := t * t * (3 - 2 * t)

/-- One interpolated channel of a gradient step:
`int(start * (1 - t) + end * t)`. -/
def lerpChan (a b : ℤ) (t : ℚ) : ℤ := pytrunc ((a : ℚ) * (1 - t) + (b : ℚ) * t)

/-- The ten gradient steps emitted between one adjacent key-color pair. -/
def gradSegment (c0 c1 : Color) : List Color :=
  (List.range 10).map fun (step : ℕ) =>
    let t : ℚ := smoothstep ((step : ℚ) / 10)
    (lerpChan c0.1 c1.1 t, lerpChan c0.2.1 c1.2.1 t, lerpChan c0.2.2 c1.2.2 t)

/-- The gradient loop plus the final `palette.append(key_colors[-1])`. -/
def buildGradient (keys : List Color) : List Color :=
  ((List.range (keys.length - 1)).flatMap fun i =>
    gradSegment (keys.getD i (0, 0, 0)) (keys.getD (i + 1) (0, 0, 0))) ++
    [keys.getLastD (0, 0, 0)]

/-- The key colors actually fed into the gradient stage. -/
def keysUsed (positiveness conflictness : ℚ)
    (jit : ℕ → ℚ × ℚ × ℚ) : List Color :=
  perturbKeys conflictness (nColors conflictness)
    (keyColorsRaw positiveness conflictness jit)

/-- `ArtGenerator.generate_color_palette`. -/
def generate_color_palette (positiveness conflictness : ℚ)
    (jit : ℕ → ℚ × ℚ × ℚ) : List Color :=
  buildGradient (keysUsed positiveness conflictness jit)

/-- All three 8-bit channels of a stop lie in [0, 255]. -/
def chanInRange (c : Color) : Bool :=
  decide (0 ≤ c.1 ∧ c.1 ≤ 255 ∧ 0 ≤ c.2.1 ∧ c.2.1 ≤ 255 ∧
    0 ≤ c.2.2 ∧ c.2.2 ≤ 255)

/-! ## Height-to-color mapping (`ArtGenerator.apply_height_to_color`)

The loop writes each pixel through `np.where`, so the computation is
per-pixel: fold the `for i in range(n_colors)` loop over the
zero-initialized color of one pixel of height `h`.  The float lerp is
stored into the `uint8` buffer; for the in-range values arising here the
store is exactly the `int(...)` truncation (`lerpChan`). -/

/-- Iteration `i`'s mask at one pixel: `height < 1/n` for the first
bin, `height ≥ i/n` for the last, `i/n ≤ height < (i+1)/n` otherwise. -/
def binMask (n i : ℕ) (h : ℚ) : Bool :=
  if i = 0 then decide (h < 1 / (n : ℚ))
  else if i = n - 1 then decide ((i : ℚ) / (n : ℚ) ≤ h)
  else decide ((i : ℚ) / (n : ℚ) ≤ h ∧ h < ((i : ℚ) + 1) / (n : ℚ))

/-- The color iteration `i` would write at a masked pixel: the clipped
interpolation toward stop `i+1` for `i < n−1`, stop `i` itself for the
last iteration. -/
def writeVal (palette : List Color) (h : ℚ) (i : ℕ) : Color :=
  let n := palette.length
  if i < n - 1 then
    let t := pyclip ((h - (i : ℚ) / (n : ℚ)) * (n : ℚ)) 0 1
    let c0 := palette.getD i (0, 0, 0)
    let c1 := palette.getD (i + 1) (0, 0, 0)
    (lerpChan c0.1 c1.1 t, lerpChan c0.2.1 c1.2.1 t, lerpChan c0.2.2 c1.2.2 t)
  else palette.getD i (0, 0, 0)

/-- One iteration of the colorization loop at a single pixel:
`np.where(mask, value, previous)`, where the source's two branches
(interpolation for `i < n−1`, plain stop for the last `i`) are the two
cases of `writeVal`. -/
def colorStep (palette : List Color) (h : ℚ) (rgb : Color) (i : ℕ) : Color :=
  if binMask palette.length i h then writeVal palette h i else rgb

/-- `apply_height_to_color` at a single pixel: the loop folded over the
zero-initialized color. -/
def applyPixel (palette : List Color) (h : ℚ) : Color :=
  (List.range palette.length).foldl (colorStep palette h) (0, 0, 0)

/-- Modelled from the spec: the bin index of a height in [0, 1] —
`n` equal-width bins, the last absorbing every `height ≥ (n−1)/n`
including `height == 1.0`. -/
def binIndexSpec (n : ℕ) (h : ℚ) : ℕ := min (⌊h * (n : ℚ)⌋).toNat (n - 1)

/-- Modelled from the spec: the color of a pixel — for bin `i < n−1`
the interpolation of `palette[i]` and `palette[i+1]` with factor
`t = clamp((height − i/n)·n, 0, 1)`; the last bin keeps its stop with
no interpolation. -/
def colorizeSpec (palette : List Color) (h : ℚ) : Color :=
  let n := palette.length
  let i := binIndexSpec n h
  if i = n - 1 then palette.getD i (0, 0, 0)
  else
    let t := pyclip ((h - (i : ℚ) / (n : ℚ)) * (n : ℚ)) 0 1
    let c0 := palette.getD i (0, 0, 0)
    let c1 := palette.getD (i + 1) (0, 0, 0)
    (lerpChan c0.1 c1.1 t, lerpChan c0.2.1 c1.2.1 t, lerpChan c0.2.2 c1.2.2 t)

/-! ## Variation generation (`ArtGenerator.generate_variations`)

The render pipeline is abstracted as a procedure that consumes the
process-wide random state and either produces an image or raises;
`seedState n` is the state `np.random.seed(n)` installs — a pure
function of the seed value, independent of the prior state. -/

/-- The loop of `generate_variations`, by remaining iteration count:
seed with `i * 1000 + 42`, render, append; an exception aborts the loop
and propagates with whatever state the failed render left behind. -/
def runVariations {σ E Img : Type} (render : σ → Except E Img × σ)
    (seedState : ℕ → σ) : ℕ → ℕ → List Img → σ →
      Except E (List Img) × σ
  | 0, _, acc, s => (.ok acc, s)
  | k + 1, i, acc, _ =>
    let s1 := seedState (i * 1000 + 42)
    match render s1 with
    | (.ok img, s2) =>
        runVariations render seedState k (i + 1) (acc ++ [img]) s2
    | (.error e, s2) => (.error e, s2)

/-- `ArtGenerator.generate_variations`: save the global random state,
run the loop, and restore the saved state after the loop.  There is no
`try/finally`, so an exception skips the restore and leaves the state
where the failed render put it. -/
def generate_variations {σ E Img : Type} (render : σ → Except E Img × σ)
    (seedState : ℕ → σ) (count : ℕ) (s0 : σ) :
    Except E (List Img) × σ :=
  match runVariations render seedState count 0 [] s0 with
  | (.ok imgs, _) => (.ok imgs, s0)
  | (.error e, s) => (.error e, s)

/-! ## Shape handling of the noise entry points
(`NoiseGenerator.gradient_noise`) -/

/-- `NoiseGenerator.gradient_noise` with the Gaussian jitter draws
passed explicitly.  `np.mgrid` builds (possibly empty) coordinate
arrays for any extents and the diagonal gradient
`(x + y) / (width + height)` is computed on them; the only failure is
`np.random.randn`, which raises
`ValueError("negative dimensions are not allowed")` for a negative
dimension.  No positivity validation takes place anywhere. -/
def gradient_noise (height width : ℤ) (jit : ℕ → ℕ → ℚ) :
    Except String Field :=
  if height < 0 ∨ width < 0 then
    .error "negative dimensions are not allowed"
  else
    .ok ((List.range height.toNat).map fun (i : ℕ) =>
      (List.range width.toNat).map fun (j : ℕ) =>
        pyclip (((i : ℚ) + (j : ℚ)) / ((width : ℚ) + (height : ℚ)) +
          jit i j * (1/20)) 0 1)

/-! ## Grain (`ArtGenerator.add_grain`) -/

/-- An RGB raster image: 8-bit channel triples by (row, column). -/
def Img8 : Type := ℕ → ℕ → ℤ × ℤ × ℤ

/-- Result length of broadcasting two numpy axis lengths: equal
lengths, or one of them 1 (stretched to the other); otherwise
incompatible. -/
def bdim (a b : ℕ) : Option ℕ :=
  if a = b then some a
  else if a = 1 then some b
  else if b = 1 then some a
  else none

/-- `ArtGenerator.add_grain` on a `height × width` image, with the
coarse (1/3-resolution) and fine (full-resolution) Gaussian draws
passed explicitly.  The coarse layer is built at
`(height//3) × (width//3)`, `np.repeat`-upscaled 3× on both axes and
cropped to at most the image size, giving a
`3·(height//3) × 3·(width//3)` array; adding it to the image
broadcasts or raises, and storing the sum back into the image buffer
raises unless the broadcast result is exactly `height × width`.  In the
surviving path the grain dimensions equal the image dimensions (they
are multiples of 3, never 1, so no axis is stretched), each grain value
is the draw scaled by `intensity·40` (coarse) or `intensity·15` (fine),
and each channel is clipped to [0, 255] and stored back to uint8 after
each of the two layers. -/
def add_grain (height width : ℕ) (img : Img8) (intensity : ℚ)
    (coarse fine : ℕ → ℕ → ℚ) : Except String Img8 :=
  let gh := min (3 * (height / 3)) height
  let gw := min (3 * (width / 3)) width
  match bdim height gh, bdim width gw with
  | some rh, some rw =>
    if rh = height ∧ rw = width then
      let coarseGrained : Img8 := fun i j =>
        let g := coarse (i / 3) (j / 3) * intensity * 40
        let c := img i j
        (pytrunc (pyclip ((c.1 : ℚ) + g) 0 255),
         pytrunc (pyclip ((c.2.1 : ℚ) + g) 0 255),
         pytrunc (pyclip ((c.2.2 : ℚ) + g) 0 255))
      let fineGrained : Img8 := fun i j =>
        let g := fine i j * intensity * 15
        let c := coarseGrained i j
        (pytrunc (pyclip ((c.1 : ℚ) + g) 0 255),
         pytrunc (pyclip ((c.2.1 : ℚ) + g) 0 255),
         pytrunc (pyclip ((c.2.2 : ℚ) + g) 0 255))
      .ok fineGrained
    else .error "could not broadcast input array into output shape"
  | _, _ => .error "operands could not be broadcast together"

/-! ## Helper lemmas and claim theorems -/

theorem pytrunc_of_nonneg {q : ℚ} (h : 0 ≤ q) : pytrunc q = ⌊q⌋ := by
  simp [pytrunc, h]

theorem pytrunc_nonneg {q : ℚ} (h : 0 ≤ q) : 0 ≤ pytrunc q := by
  rw [pytrunc_of_nonneg h]
  exact Int.le_floor.mpr (by exact_mod_cast h)

theorem pytrunc_le {q b : ℚ} (h0 : 0 ≤ q) (h : q ≤ b) : (pytrunc q : ℚ) ≤ b := by
  rw [pytrunc_of_nonneg h0]
  exact le_trans (Int.floor_le q) h

theorem pymod_nonneg (x : ℚ) {m : ℚ} (hm : 0 < m) : 0 ≤ pymod x m := by
  have h := Int.floor_le (x / m)
  have : m * ⌊x / m⌋ ≤ m * (x / m) := by
    exact mul_le_mul_of_nonneg_left h (le_of_lt hm)
  rw [mul_div_cancel₀ x (ne_of_gt hm)] at this
  simpa [pymod] using this

theorem pymod_lt (x : ℚ) {m : ℚ} (hm : 0 < m) : pymod x m < m := by
  have h := Int.lt_floor_add_one (x / m)
  have := (div_lt_iff₀ hm).mp h
  simp only [pymod]
  nlinarith

theorem pyclip_le (x lo hi : ℚ) : pyclip x lo hi ≤ hi := min_le_right _ _

theorem pyclip_ge {x lo hi : ℚ} (h : lo ≤ hi) : lo ≤ pyclip x lo hi :=
  le_min (le_max_right x lo) h

/-- C1: the claim says that when the assembled field is degenerate
(constant everywhere — unavoidable at shape 1×1, where every generated
field has a single sample) the final normalization returns the constant
0.5 field.  The code has no such fallback: it evaluates
`(base - min) / (max - min)` with `max == min`, a 0/0 float division
producing a NaN-filled array (`none` in this embedding), not the
constant 0.5 field. -/
theorem C1_degenerate_normalization_yields_nan_not_half :
    (generate_height_map constLib (1, 1) (1/2) "terrain" ()).1 = .ok none ∧
    (Except.ok none : Except String (Option Field)) ≠
      .ok (some (constField (1, 1) (1/2))) := by
  constructor
  · norm_num [generate_height_map, dispatchBase, constLib, normalize,
      fieldVals, constField, List.min?, List.max?]
    norm_num [fieldZip]
  · simp

/-- C5: a secondary terrain field (hill count `int(5 + energy·10)`,
radii 0.05–0.15) is blended into the base field if and only if
`energy > 0.6` and the kind is terrain or value, as
`base·(1−s) + secondary·s` with `s = (energy − 0.6)·0.2`, and the final
min-max normalization runs after that blending. -/
theorem C5_blend_condition_formula_and_order {σ : Type} (lib : NoiseLib σ)
    (shape : ℕ × ℕ) (energy : ℚ) (noise_type : String) (s : σ)
    (base : Field) (s1 : σ)
    (hd : dispatchBase lib shape energy noise_type s = .ok (base, s1)) :
    generate_height_map lib shape energy noise_type s =
      if 3/5 < energy ∧ (noise_type = "terrain" ∨ noise_type = "value") then
        let t := lib.terrain_noise shape (pytrunc (5 + energy * 10))
          (1/20) (3/20) s1
        (.ok (normalize (blendSpec base t.1 ((energy - 3/5) * (1/5)))), t.2)
      else (.ok (normalize base), s1) := by
  unfold generate_height_map
  rw [hd]
  rfl

/-- Witness for C5 at a concrete instance: `energy = 0.8`, terrain kind,
the constant noise library on a 2×2 shape. -/
theorem C5_blend_condition_formula_and_order_witness :
    generate_height_map constLib (2, 2) (4/5) "terrain" () =
      if 3/5 < (4/5 : ℚ) ∧ ("terrain" = "terrain" ∨ "terrain" = "value") then
        let t := constLib.terrain_noise (2, 2) (pytrunc (5 + (4/5) * 10))
          (1/20) (3/20) ()
        (.ok (normalize (blendSpec (constField (2, 2) (1/2)) t.1
          ((4/5 - 3/5) * (1/5)))), t.2)
      else (.ok (normalize (constField (2, 2) (1/2))), ()) :=
  C5_blend_condition_formula_and_order constLib (2, 2) (4/5) "terrain" ()
    (constField (2, 2) (1/2)) () (by rfl)

theorem smoothstep_mem {t : ℚ} (h0 : 0 ≤ t) (h1 : t ≤ 1) :
    0 ≤ smoothstep t ∧ smoothstep t ≤ 1 := by
  unfold smoothstep
  constructor
  · nlinarith
  · nlinarith [mul_nonneg (mul_nonneg (sub_nonneg.2 h1) (sub_nonneg.2 h1))
      (by linarith : (0 : ℚ) ≤ 1 + 2 * t)]

theorem byte_range {x : ℚ} (h0 : 0 ≤ x) (h1 : x ≤ 1) :
    0 ≤ pytrunc (x * 255) ∧ pytrunc (x * 255) ≤ 255 := by
  have hx0 : (0 : ℚ) ≤ x * 255 := by nlinarith
  refine ⟨pytrunc_nonneg hx0, ?_⟩
  rw [pytrunc_of_nonneg hx0]
  have : x * 255 ≤ 255 := by nlinarith
  calc ⌊x * 255⌋ ≤ ⌊(255 : ℚ)⌋ := Int.floor_le_floor this
    _ = 255 := by norm_num

theorem hsv_to_rgb_mem_unit {h s v : ℚ} (hh : 0 ≤ h)
    (hs0 : 0 ≤ s) (hs1 : s ≤ 1) (hv0 : 0 ≤ v) (hv1 : v ≤ 1) :
    (0 ≤ (hsv_to_rgb h s v).1 ∧ (hsv_to_rgb h s v).1 ≤ 1) ∧
    (0 ≤ (hsv_to_rgb h s v).2.1 ∧ (hsv_to_rgb h s v).2.1 ≤ 1) ∧
    (0 ≤ (hsv_to_rgb h s v).2.2 ∧ (hsv_to_rgb h s v).2.2 ≤ 1) := by
  unfold hsv_to_rgb
  by_cases hz : s = 0
  · simp only [hz, if_pos rfl]
    exact ⟨⟨hv0, hv1⟩, ⟨hv0, hv1⟩, ⟨hv0, hv1⟩⟩
  · have h6 : (0 : ℚ) ≤ h * 6 := by nlinarith
    have hi : pytrunc (h * 6) = ⌊h * 6⌋ := pytrunc_of_nonneg h6
    have hf0 : (0 : ℚ) ≤ h * 6 - ⌊h * 6⌋ := by
      have := Int.floor_le (h * 6)
      linarith
    have hf1 : h * 6 - ⌊h * 6⌋ ≤ 1 := by
      have := Int.lt_floor_add_one (h * 6)
      push_cast at this ⊢
      linarith
    simp only [if_neg hz, hi]
    set f : ℚ := h * 6 - ⌊h * 6⌋ with hfdef
    have hp : 0 ≤ v * (1 - s) ∧ v * (1 - s) ≤ 1 := by
      constructor <;> nlinarith
    have hq : 0 ≤ v * (1 - s * f) ∧ v * (1 - s * f) ≤ 1 := by
      constructor <;> nlinarith
    have ht : 0 ≤ v * (1 - s * (1 - f)) ∧ v * (1 - s * (1 - f)) ≤ 1 := by
      constructor <;> nlinarith
    split_ifs <;>
      refine ⟨⟨?_, ?_⟩, ⟨?_, ?_⟩, ⟨?_, ?_⟩⟩ <;>
      first
      | exact hp.1
      | exact hp.2
      | exact hq.1
      | exact hq.2
      | exact ht.1
      | exact ht.2
      | exact hv0
      | exact hv1

/-- The saturation and value returned by `rgb_to_hsv` on unit-range
inputs lie in [0, 1]. -/
theorem rgb_to_hsv_sv_mem_unit {r g b : ℚ}
    (hr0 : 0 ≤ r) (hr1 : r ≤ 1) (hg0 : 0 ≤ g) (hg1 : g ≤ 1)
    (hb0 : 0 ≤ b) (hb1 : b ≤ 1) :
    (0 ≤ (rgb_to_hsv r g b).2.1 ∧ (rgb_to_hsv r g b).2.1 ≤ 1) ∧
    (0 ≤ (rgb_to_hsv r g b).2.2 ∧ (rgb_to_hsv r g b).2.2 ≤ 1) := by
  unfold rgb_to_hsv
  have hmax0 : 0 ≤ max r (max g b) := le_trans hr0 (le_max_left _ _)
  have hmax1 : max r (max g b) ≤ 1 := by
    simp only [max_le_iff]
    exact ⟨hr1, hg1, hb1⟩
  have hmin0 : 0 ≤ min r (min g b) :=
    le_min hr0 (le_min hg0 hb0)
  by_cases he : min r (min g b) = max r (max g b)
  · simp only [if_pos he]
    exact ⟨⟨le_refl 0, by norm_num⟩, hmax0, hmax1⟩
  · simp only [if_neg he]
    have hle : min r (min g b) ≤ max r (max g b) :=
      le_trans (min_le_left _ _) (le_max_left _ _)
    have hlt : min r (min g b) < max r (max g b) := lt_of_le_of_ne hle he
    have hpos : 0 < max r (max g b) := lt_of_le_of_lt hmin0 hlt
    refine ⟨⟨div_nonneg (by linarith) (le_of_lt hpos), ?_⟩, hmax0, hmax1⟩
    rw [div_le_one hpos]
    linarith

/-- Every key color produced by the key-color loop has all channels in
[0, 255] (the clamps on saturation/brightness and the hue wrap make
this independent of the jitter draws). -/
theorem makeKeyColor_chanInRange (band : ℚ × ℚ × ℚ × ℚ) (n i : ℕ)
    (j : ℚ × ℚ × ℚ) : chanInRange (makeKeyColor band n i j) = true := by
  unfold makeKeyColor chanInRange
  have hhue : (0 : ℚ) ≤ pymod (band.1 + (if n = 2 then (if i = 0 then 1/4 else 3/4)
      else (i : ℚ) / ((n : ℚ) - 1)) * (band.2.1 - band.1) + j.1) 360 / 360 := by
    have := pymod_nonneg (band.1 + (if n = 2 then (if i = 0 then 1/4 else 3/4)
      else (i : ℚ) / ((n : ℚ) - 1)) * (band.2.1 - band.1) + j.1) (by norm_num : (0:ℚ) < 360)
    positivity
  have hsat0 : (0 : ℚ) ≤ pyclip (band.2.2.1 + j.2.1) (1/5) (9/10) :=
    le_trans (by norm_num) (pyclip_ge (by norm_num))
  have hsat1 : pyclip (band.2.2.1 + j.2.1) (1/5) (9/10) ≤ 1 :=
    le_trans (pyclip_le _ _ _) (by norm_num)
  have hbri0 : (0 : ℚ) ≤ pyclip (band.2.2.2 + j.2.2) (3/10) (19/20) :=
    le_trans (by norm_num) (pyclip_ge (by norm_num))
  have hbri1 : pyclip (band.2.2.2 + j.2.2) (3/10) (19/20) ≤ 1 :=
    le_trans (pyclip_le _ _ _) (by norm_num)
  have hrgb := hsv_to_rgb_mem_unit hhue hsat0 hsat1 hbri0 hbri1
  have h1 := byte_range hrgb.1.1 hrgb.1.2
  have h2 := byte_range hrgb.2.1.1 hrgb.2.1.2
  have h3 := byte_range hrgb.2.2.1 hrgb.2.2.2
  simp only [decide_eq_true_eq]
  exact ⟨h1.1, h1.2, h2.1, h2.2, h3.1, h3.2⟩

/-- The middle-key recoloring keeps all channels in [0, 255]. -/
theorem shiftColor_chanInRange {c : Color} (hc : chanInRange c = true) :
    chanInRange (shiftColor c) = true := by
  unfold chanInRange at hc
  simp only [decide_eq_true_eq] at hc
  obtain ⟨h10, h11, h20, h21, h30, h31⟩ := hc
  unfold shiftColor chanInRange
  have hr0 : (0 : ℚ) ≤ (c.1 : ℚ) / 255 := by positivity
  have hr1 : (c.1 : ℚ) / 255 ≤ 1 := by
    rw [div_le_one (by norm_num : (0:ℚ) < 255)]
    exact_mod_cast h11
  have hg0 : (0 : ℚ) ≤ (c.2.1 : ℚ) / 255 := by positivity
  have hg1 : (c.2.1 : ℚ) / 255 ≤ 1 := by
    rw [div_le_one (by norm_num : (0:ℚ) < 255)]
    exact_mod_cast h21
  have hb0 : (0 : ℚ) ≤ (c.2.2 : ℚ) / 255 := by positivity
  have hb1 : (c.2.2 : ℚ) / 255 ≤ 1 := by
    rw [div_le_one (by norm_num : (0:ℚ) < 255)]
    exact_mod_cast h31
  have hsv := rgb_to_hsv_sv_mem_unit hr0 hr1 hg0 hg1 hb0 hb1
  have hhue : (0 : ℚ) ≤ pymod ((rgb_to_hsv ((c.1 : ℚ) / 255) ((c.2.1 : ℚ) / 255)
      ((c.2.2 : ℚ) / 255)).1 + 15/100) 1 :=
    pymod_nonneg _ (by norm_num)
  have hsat0 : (0 : ℚ) ≤ min ((rgb_to_hsv ((c.1 : ℚ) / 255) ((c.2.1 : ℚ) / 255)
      ((c.2.2 : ℚ) / 255)).2.1 * (13/10)) (9/10) :=
    le_min (by nlinarith [hsv.1.1]) (by norm_num)
  have hsat1 : min ((rgb_to_hsv ((c.1 : ℚ) / 255) ((c.2.1 : ℚ) / 255)
      ((c.2.2 : ℚ) / 255)).2.1 * (13/10)) (9/10) ≤ 1 :=
    le_trans (min_le_right _ _) (by norm_num)
  have hrgb := hsv_to_rgb_mem_unit hhue hsat0 hsat1 hsv.2.1 hsv.2.2
  have h1 := byte_range hrgb.1.1 hrgb.1.2
  have h2 := byte_range hrgb.2.1.1 hrgb.2.1.2
  have h3 := byte_range hrgb.2.2.1 hrgb.2.2.2
  simp only [decide_eq_true_eq]
  exact ⟨h1.1, h1.2, h2.1, h2.2, h3.1, h3.2⟩

/-- Characterization of the key colors after the high-conflictness
perturbation block. -/
theorem keysUsed_eq (positiveness conflictness : ℚ)
    (jit : ℕ → ℚ × ℚ × ℚ) :
    keysUsed positiveness conflictness jit =
      if 3/5 < conflictness then
        [makeKeyColor (bandOf positiveness) 3 0 (jit 0),
         middleShiftSpec (makeKeyColor (bandOf positiveness) 3 1 (jit 1)),
         makeKeyColor (bandOf positiveness) 3 2 (jit 2)]
      else keyColorsRaw positiveness conflictness jit := by
  have hshift : shiftColor = middleShiftSpec := rfl
  by_cases hc : 3/5 < conflictness
  · have h3 : nColors conflictness = 3 := by
      unfold nColors
      rw [if_pos (by linarith)]
    rw [if_pos hc]
    unfold keysUsed perturbKeys
    rw [h3, if_pos ⟨hc, rfl⟩]
    unfold keyColorsRaw
    rw [h3]
    simp [List.range_succ, hshift]
  · rw [if_neg hc]
    unfold keysUsed perturbKeys
    rw [if_neg (fun hand => hc hand.1)]

/-- C6: the middle key color is replaced by the color obtained from its
own pre-shift HSV value by shifting the hue by +0.15 turn modulo 1.0
and multiplying the saturation by 1.3 capped at 0.9, keeping the
brightness unchanged, exactly when `conflictness > 0.6` (three key
colors are then automatic, since `0.6 > 0.3`); for
`conflictness ≤ 0.6` no key color is perturbed. -/
theorem C6_middle_key_perturbation (positiveness conflictness : ℚ)
    (jit : ℕ → ℚ × ℚ × ℚ) :
    keysUsed positiveness conflictness jit =
      if 3/5 < conflictness then
        [makeKeyColor (bandOf positiveness) 3 0 (jit 0),
         middleShiftSpec (makeKeyColor (bandOf positiveness) 3 1 (jit 1)),
         makeKeyColor (bandOf positiveness) 3 2 (jit 2)]
      else keyColorsRaw positiveness conflictness jit :=
  keysUsed_eq positiveness conflictness jit

theorem getD_mem {α : Type} (l : List α) (i : ℕ) (d : α)
    (h : i < l.length) : l.getD i d ∈ l := by
  rw [List.getD_eq_getElem l d h]
  exact List.getElem_mem h

theorem getLastD_mem {α : Type} : ∀ (l : List α) (d : α), l ≠ [] →
    l.getLastD d ∈ l
  | [], _, h => absurd rfl h
  | [a], _, _ => by simp [List.getLastD]
  | a :: b :: t, d, _ => by
    rw [List.getLastD_cons]
    exact List.mem_cons_of_mem _ (getLastD_mem (b :: t) a (by simp))

theorem perturbKeys_length (c : ℚ) (n : ℕ) (keys : List Color) :
    (perturbKeys c n keys).length = keys.length := by
  unfold perturbKeys
  split
  · simp
  · rfl

theorem keyColorsRaw_length (p c : ℚ) (jit : ℕ → ℚ × ℚ × ℚ) :
    (keyColorsRaw p c jit).length = nColors c := by
  simp [keyColorsRaw]

theorem keysUsed_length (p c : ℚ) (jit : ℕ → ℚ × ℚ × ℚ) :
    (keysUsed p c jit).length = nColors c := by
  rw [keysUsed, perturbKeys_length, keyColorsRaw_length]

theorem gradSegment_length (c0 c1 : Color) :
    (gradSegment c0 c1).length = 10 := by
  simp [gradSegment]

theorem flatMap_range_length {α : Type} (f : ℕ → List α)
    (h : ∀ i, (f i).length = 10) (m : ℕ) :
    ((List.range m).flatMap f).length = 10 * m := by
  induction m with
  | zero => simp
  | succ k ih =>
    rw [List.range_succ, List.flatMap_append]
    simp [ih, h, Nat.mul_succ]

theorem buildGradient_length (keys : List Color) :
    (buildGradient keys).length = 10 * (keys.length - 1) + 1 := by
  unfold buildGradient
  rw [List.length_append,
    flatMap_range_length _ (fun i => gradSegment_length _ _)]
  simp

/-- Every key color the gradient stage receives has channels in
[0, 255]. -/
theorem keysUsed_chanInRange (p c : ℚ) (jit : ℕ → ℚ × ℚ × ℚ) :
    ∀ x ∈ keysUsed p c jit, chanInRange x = true := by
  intro x hx
  rw [keysUsed_eq] at hx
  have hshift : shiftColor = middleShiftSpec := rfl
  split at hx
  · simp only [List.mem_cons, List.not_mem_nil, or_false] at hx
    rcases hx with h | h | h
    · rw [h]; exact makeKeyColor_chanInRange _ _ _ _
    · rw [h, ← hshift]
      exact shiftColor_chanInRange (makeKeyColor_chanInRange _ _ _ _)
    · rw [h]; exact makeKeyColor_chanInRange _ _ _ _
  · unfold keyColorsRaw at hx
    obtain ⟨i, _, rfl⟩ := List.mem_map.1 hx
    exact makeKeyColor_chanInRange _ _ _ _

theorem lerpChan_range {a b : ℤ} {t : ℚ} (ha0 : 0 ≤ a) (ha1 : a ≤ 255)
    (hb0 : 0 ≤ b) (hb1 : b ≤ 255) (ht0 : 0 ≤ t) (ht1 : t ≤ 1) :
    0 ≤ lerpChan a b t ∧ lerpChan a b t ≤ 255 := by
  unfold lerpChan
  have ha0q : (0 : ℚ) ≤ (a : ℚ) := by exact_mod_cast ha0
  have ha1q : (a : ℚ) ≤ 255 := by exact_mod_cast ha1
  have hb0q : (0 : ℚ) ≤ (b : ℚ) := by exact_mod_cast hb0
  have hb1q : (b : ℚ) ≤ 255 := by exact_mod_cast hb1
  have hq0 : (0 : ℚ) ≤ (a : ℚ) * (1 - t) + (b : ℚ) * t := by nlinarith
  have hq1 : (a : ℚ) * (1 - t) + (b : ℚ) * t ≤ 255 := by nlinarith
  refine ⟨pytrunc_nonneg hq0, ?_⟩
  rw [pytrunc_of_nonneg hq0]
  calc ⌊(a : ℚ) * (1 - t) + (b : ℚ) * t⌋ ≤ ⌊(255 : ℚ)⌋ :=
        Int.floor_le_floor hq1
    _ = 255 := by norm_num

theorem gradSegment_chanInRange {c0 c1 : Color}
    (h0 : chanInRange c0 = true) (h1 : chanInRange c1 = true) :
    ∀ x ∈ gradSegment c0 c1, chanInRange x = true := by
  intro x hx
  unfold gradSegment at hx
  obtain ⟨step, hstep, rfl⟩ := List.mem_map.1 hx
  rw [List.mem_range] at hstep
  have ht0 : (0 : ℚ) ≤ (step : ℚ) / 10 := by positivity
  have ht1 : (step : ℚ) / 10 ≤ 1 := by
    rw [div_le_one (by norm_num : (0:ℚ) < 10)]
    exact_mod_cast le_of_lt hstep
  have hs := smoothstep_mem ht0 ht1
  unfold chanInRange at h0 h1 ⊢
  simp only [decide_eq_true_eq] at h0 h1 ⊢
  obtain ⟨a0, a1, b0, b1, d0, d1⟩ := h0
  obtain ⟨e0, e1, f0, f1, g0, g1⟩ := h1
  have r1 := lerpChan_range a0 a1 e0 e1 hs.1 hs.2
  have r2 := lerpChan_range b0 b1 f0 f1 hs.1 hs.2
  have r3 := lerpChan_range d0 d1 g0 g1 hs.1 hs.2
  exact ⟨r1.1, r1.2, r2.1, r2.2, r3.1, r3.2⟩

/-- C4: for every positiveness, conflictness and jitter stream, the
palette has exactly `10·(n_keys − 1) + 1` stops with
`n_keys = 3` iff `conflictness > 0.3`, and every 8-bit channel of every
stop lies in [0, 255]. -/
theorem C4_palette_length_and_channel_range
    (positiveness conflictness : ℚ) (jit : ℕ → ℚ × ℚ × ℚ) :
    (generate_color_palette positiveness conflictness jit).length =
      10 * (nColors conflictness - 1) + 1 ∧
    nColors conflictness = (if 3/10 < conflictness then 3 else 2) ∧
    (generate_color_palette positiveness conflictness jit).all
      chanInRange = true := by
  refine ⟨?_, rfl, ?_⟩
  · unfold generate_color_palette
    rw [buildGradient_length, keysUsed_length]
  · rw [List.all_eq_true]
    intro x hx
    unfold generate_color_palette buildGradient at hx
    have hKlen : (keysUsed positiveness conflictness jit).length =
        nColors conflictness := keysUsed_length _ _ _
    have hKpos : 2 ≤ (keysUsed positiveness conflictness jit).length := by
      rw [hKlen]
      unfold nColors
      split <;> norm_num
    rcases List.mem_append.1 hx with h | h
    · obtain ⟨i, hi, hxseg⟩ := List.mem_flatMap.1 h
      rw [List.mem_range] at hi
      have hi1 : i < (keysUsed positiveness conflictness jit).length := by
        omega
      have hi2 : i + 1 < (keysUsed positiveness conflictness jit).length := by
        omega
      exact gradSegment_chanInRange
        (keysUsed_chanInRange _ _ _ _ (getD_mem _ _ _ hi1))
        (keysUsed_chanInRange _ _ _ _ (getD_mem _ _ _ hi2)) _ hxseg
    · have hx' : x = (keysUsed positiveness conflictness jit).getLastD
          (0, 0, 0) := by simpa using h
      rw [hx']
      exact keysUsed_chanInRange _ _ _ _
        (getLastD_mem _ _ (by
          intro hnil
          rw [hnil] at hKpos
          simp at hKpos))

theorem foldl_no_write {α : Type} (mask : ℕ → Bool) (v : ℕ → α)
    (l : List ℕ) (hl : ∀ i ∈ l, mask i = false) (init : α) :
    l.foldl (fun r i => if mask i then v i else r) init = init := by
  induction l generalizing init with
  | nil => rfl
  | cons a t ih =>
    simp only [List.foldl_cons]
    rw [hl a (List.mem_cons_self a t)]
    simp only [Bool.false_eq_true, if_false]
    exact ih (fun i hi => hl i (List.mem_cons_of_mem a hi)) init

theorem foldl_single_write {α : Type} (mask : ℕ → Bool) (v : ℕ → α)
    (n i0 : ℕ) (hi0 : i0 < n) (hmask : mask i0 = true)
    (hothers : ∀ i < n, i ≠ i0 → mask i = false) (init : α) :
    (List.range n).foldl (fun r i => if mask i then v i else r) init =
      v i0 := by
  induction n generalizing init with
  | zero => omega
  | succ k ih =>
    rw [List.range_succ, List.foldl_append]
    rcases Nat.lt_or_ge i0 k with hk | hk
    · rw [ih hk (fun i hik hne => hothers i (by omega) hne) init]
      simp only [List.foldl_cons, List.foldl_nil]
      rw [hothers k (by omega) (by omega)]
      simp
    · have hik : i0 = k := by omega
      subst hik
      rw [foldl_no_write mask v _
        (fun i hi => hothers i (by
          rw [List.mem_range] at hi
          omega) (by
          rw [List.mem_range] at hi
          omega)) init]
      simp only [List.foldl_cons, List.foldl_nil]
      rw [hmask]
      simp

/-- For a height in [0, 1] and at least two stops, iteration `i`'s mask
fires exactly when `i` is the claimed bin index. -/
theorem binMask_true_iff {n : ℕ} {h : ℚ} (hn : 2 ≤ n) (h0 : 0 ≤ h)
    (h1 : h ≤ 1) {i : ℕ} (hi : i < n) :
    binMask n i h = true ↔ i = binIndexSpec n h := by
  have hnQ : (0 : ℚ) < (n : ℚ) := by
    exact_mod_cast Nat.lt_of_lt_of_le (by norm_num) hn
  set k : ℤ := ⌊h * (n : ℚ)⌋ with hk
  have hk0 : 0 ≤ k := Int.le_floor.2 (by positivity)
  have hkn : k ≤ (n : ℤ) := by
    have : h * (n : ℚ) ≤ (n : ℚ) := by nlinarith
    calc k ≤ ⌊(n : ℚ)⌋ := Int.floor_le_floor this
      _ = (n : ℤ) := Int.floor_natCast n
  have hbin : binIndexSpec n h = min k.toNat (n - 1) := rfl
  have hfloor_le : ∀ m : ℕ, ((m : ℚ) / (n : ℚ) ≤ h ↔ (m : ℤ) ≤ k) := by
    intro m
    rw [div_le_iff₀ hnQ, hk, Int.le_floor]
    push_cast
    exact Iff.rfl
  have hfloor_lt : ∀ m : ℕ, (h < ((m : ℚ) + 1) / (n : ℚ) ↔ k < (m : ℤ) + 1) := by
    intro m
    rw [lt_div_iff₀ hnQ, hk, Int.floor_lt]
    push_cast
    exact Iff.rfl
  have hbinval : (binIndexSpec n h = k.toNat ∧ k.toNat ≤ n - 1) ∨
      (binIndexSpec n h = n - 1 ∧ n - 1 < k.toNat) := by
    rw [hbin]
    exact min_cases _ _
  rcases Nat.eq_zero_or_pos i with hiz | hipos
  · subst hiz
    have hmask : binMask n 0 h = decide (h < 1 / (n : ℚ)) := by
      unfold binMask
      rw [if_pos rfl]
    have hlt1 : h < 1 / (n : ℚ) ↔ k < 1 := by
      have := hfloor_lt 0
      push_cast at this
      simpa using this
    rw [hmask, decide_eq_true_eq, hlt1]
    rcases hbinval with ⟨hb, hc⟩ | ⟨hb, hc⟩ <;> omega
  · have hine : ¬ i = 0 := by omega
    rcases Nat.lt_or_ge i (n - 1) with hmid | hlast
    · have hine2 : ¬ i = n - 1 := by omega
      have hmask : binMask n i h =
          decide ((i : ℚ) / (n : ℚ) ≤ h ∧ h < ((i : ℚ) + 1) / (n : ℚ)) := by
        unfold binMask
        rw [if_neg hine, if_neg hine2]
      rw [hmask, decide_eq_true_eq, hfloor_le i, hfloor_lt i]
      rcases hbinval with ⟨hb, hc⟩ | ⟨hb, hc⟩ <;> omega
    · have hieq : i = n - 1 := by omega
      subst hieq
      have hmask : binMask n (n - 1) h =
          decide (((n - 1 : ℕ) : ℚ) / (n : ℚ) ≤ h) := by
        unfold binMask
        rw [if_neg hine, if_pos rfl]
      rw [hmask, decide_eq_true_eq, hfloor_le (n - 1)]
      have hcast : ((n - 1 : ℕ) : ℤ) = (n : ℤ) - 1 := by omega
      rcases hbinval with ⟨hb, hc⟩ | ⟨hb, hc⟩ <;> omega

/-- C3: for a palette of `n ≥ 2` stops and a height in [0, 1], exactly
one of the `n` bin masks fires, and the pixel ends up with the claimed
color: the clipped interpolation of `palette[i]` and `palette[i+1]`
with `t = clamp((height − i/n)·n, 0, 1)` for a bin `i < n−1`, and the
last stop with no interpolation for the last bin — in particular no
pixel is left at its zero initialization. -/
theorem C3_colorize_total_and_interpolated (palette : List Color) (h : ℚ)
    (hn : 2 ≤ palette.length) (h0 : 0 ≤ h) (h1 : h ≤ 1) :
    (∃! i, i < palette.length ∧ binMask palette.length i h = true) ∧
    applyPixel palette h = colorizeSpec palette h := by
  obtain ⟨n, hndef⟩ : ∃ n, palette.length = n := ⟨palette.length, rfl⟩
  rw [hndef] at hn ⊢
  have hi0le : binIndexSpec n h ≤ n - 1 := Nat.min_le_right _ _
  have hi0lt : binIndexSpec n h < n := by omega
  have hmaskon : binMask n (binIndexSpec n h) h = true :=
    (binMask_true_iff hn h0 h1 hi0lt).2 rfl
  have hmaskoff : ∀ i < n, i ≠ binIndexSpec n h → binMask n i h = false := by
    intro i hi hne
    cases hbool : binMask n i h with
    | false => rfl
    | true => exact absurd ((binMask_true_iff hn h0 h1 hi).1 hbool) hne
  constructor
  · refine ⟨binIndexSpec n h, ⟨hi0lt, hmaskon⟩, ?_⟩
    intro i ⟨hilt, himask⟩
    exact (binMask_true_iff hn h0 h1 hilt).1 himask
  · have hstep : colorStep palette h =
        fun r i => if binMask n i h then writeVal palette h i else r := by
      funext r i
      unfold colorStep
      rw [hndef]
    unfold applyPixel
    rw [hndef, hstep, foldl_single_write (fun i => binMask n i h)
      (writeVal palette h) n (binIndexSpec n h) hi0lt hmaskon hmaskoff]
    simp only [writeVal, colorizeSpec, hndef]
    rcases Nat.lt_or_ge (binIndexSpec n h) (n - 1) with hmid | hlast
    · rw [if_pos hmid, if_neg (by omega)]
    · have heq : binIndexSpec n h = n - 1 := by omega
      rw [if_neg (by omega), if_pos heq]

/-- Witness for C3: a two-stop palette and height 1/3 (first bin). -/
theorem C3_colorize_total_and_interpolated_witness :
    (2 ≤ ([(0, 0, 0), (255, 128, 64)] : List Color).length ∧
      (0 : ℚ) ≤ 1/3 ∧ (1/3 : ℚ) ≤ 1) ∧
    ((∃! i, i < ([(0, 0, 0), (255, 128, 64)] : List Color).length ∧
        binMask ([(0, 0, 0), (255, 128, 64)] : List Color).length i (1/3) = true) ∧
      applyPixel ([(0, 0, 0), (255, 128, 64)] : List Color) (1/3) =
        colorizeSpec ([(0, 0, 0), (255, 128, 64)] : List Color) (1/3)) :=
  ⟨⟨by norm_num, by norm_num, by norm_num⟩,
    C3_colorize_total_and_interpolated [(0, 0, 0), (255, 128, 64)] (1/3)
      (by norm_num) (by norm_num) (by norm_num)⟩

theorem list_mapM_map {α β γ E : Type} (l : List α) (g : α → β)
    (f : β → Except E γ) :
    (l.map g).mapM' f = l.mapM' (fun a => f (g a)) := by
  induction l with
  | nil => rfl
  | cons a t ih => simp [List.mapM'_cons, ih]

/-- The image sequence computed by the variation loop: each iteration's
render sees exactly the state seeded from `i * 1000 + 42`, so the
sequence is the `mapM` of the per-seed render results, prefixed by the
accumulator. -/
theorem runVariations_fst {σ E Img : Type} (render : σ → Except E Img × σ)
    (seedState : ℕ → σ) (k : ℕ) : ∀ (i : ℕ) (acc : List Img) (s : σ),
    (runVariations render seedState k i acc s).1 =
      Except.map (acc ++ ·)
        ((List.range k).mapM' fun j =>
          (render (seedState ((i + j) * 1000 + 42))).1) := by
  induction k with
  | zero =>
    intro i acc s
    simp [runVariations, Except.map, pure, Except.pure, List.mapM']
  | succ k ih =>
    intro i acc s
    rw [List.range_succ_eq_map, List.mapM'_cons, list_mapM_map]
    have harg : (fun j => (render (seedState ((i + Nat.succ j) * 1000 + 42))).1)
        = fun j => (render (seedState ((i + 1 + j) * 1000 + 42))).1 := by
      funext j
      have hj : i + Nat.succ j = i + 1 + j := by omega
      rw [hj]
    rw [harg]
    unfold runVariations
    cases hr : render (seedState (i * 1000 + 42)) with
    | mk res s2 =>
      cases res with
      | error e =>
        simp [hr, Bind.bind, Except.bind, Except.map]
      | ok img =>
        simp only [hr]
        rw [ih (i + 1) (acc ++ [img]) s2]
        cases hM : (List.range k).mapM'
            (fun j => (render (seedState ((i + 1 + j) * 1000 + 42))).1) with
        | error e => simp [hM, hr, Except.map, Bind.bind, Except.bind]
        | ok xs =>
          simp [hM, hr, Except.map, Bind.bind, Except.bind, pure, Except.pure]

/-- The first component of `generate_variations` (the rendered
sequence, or the first exception) is the per-seed `mapM`. -/
theorem generate_variations_fst {σ E Img : Type}
    (render : σ → Except E Img × σ) (seedState : ℕ → σ) (count : ℕ)
    (s0 : σ) :
    (generate_variations render seedState count s0).1 =
      (List.range count).mapM
        (fun i => (render (seedState (i * 1000 + 42))).1) := by
  have hrv := runVariations_fst render seedState count 0 [] s0
  have harg : (fun j => (render (seedState ((0 + j) * 1000 + 42))).1)
      = fun i => (render (seedState (i * 1000 + 42))).1 := by
    funext j
    rw [Nat.zero_add]
  rw [harg] at hrv
  have hmapid : Except.map (fun x : List Img => [] ++ x)
      ((List.range count).mapM' fun i =>
        (render (seedState (i * 1000 + 42))).1) =
      (List.range count).mapM' fun i =>
        (render (seedState (i * 1000 + 42))).1 := by
    cases hM : (List.range count).mapM' fun i =>
        (render (seedState (i * 1000 + 42))).1 <;>
      simp [Except.map]
  rw [hmapid] at hrv
  rw [← List.mapM'_eq_mapM]
  unfold generate_variations
  cases hrun : runVariations render seedState count 0 [] s0 with
  | mk res s =>
    rw [hrun] at hrv
    cases res with
    | error e => simpa using hrv
    | ok imgs => simpa using hrv

/-- C7 (amended): the loop seeds variation `i` with the deterministic
seed `i·1000 + 42` — the rendered sequence is exactly the `mapM` of the
per-seed renders — and the saved global random state is restored
whenever every render succeeds; an exception propagates before the
restore (there is no `try/finally`), so on failure the state is *not*
restored. -/
theorem C7_seeds_and_restore_on_success {σ E Img : Type}
    (render : σ → Except E Img × σ) (seedState : ℕ → σ) (count : ℕ)
    (s0 : σ) :
    (generate_variations render seedState count s0).1 =
      (List.range count).mapM
        (fun i => (render (seedState (i * 1000 + 42))).1) ∧
    (∀ imgs, (generate_variations render seedState count s0).1 =
      .ok imgs → (generate_variations render seedState count s0).2 = s0) := by
  refine ⟨generate_variations_fst render seedState count s0, ?_⟩
  intro imgs hok
  unfold generate_variations at hok ⊢
  cases hrun : runVariations render seedState count 0 [] s0 with
  | mk res s =>
    rw [hrun] at hok
    cases res with
    | error e => exact Except.noConfusion hok
    | ok imgs2 => rfl

/-- Witness for C7 at a concrete succeeding instance: the state-plus-one
render over ℕ states, two variations, initial state 7; the state after
the call is the initial 7. -/
theorem C7_seeds_and_restore_on_success_witness :
    (generate_variations (fun s : ℕ => ((Except.ok s : Except ℕ ℕ), s + 1))
      (fun n => n) 2 7).2 = 7 :=
  (C7_seeds_and_restore_on_success (fun s : ℕ =>
      ((Except.ok s : Except ℕ ℕ), s + 1)) (fun n => n) 2 7).2
    [42, 1042] (by rfl)

/-- C7 counterexample to the claim as stated: with a render that
consumes one draw and then raises, a single-variation call leaves the
global random state at 43 (the failed render's state), not at the
saved initial state 0 — the restore is skipped on failure. -/
theorem C7_restore_skipped_on_failure :
    (generate_variations (fun s : ℕ => ((Except.error 0 : Except ℕ ℕ), s + 1))
      (fun n => n) 1 0).2 ≠ 0 := by
  intro hcontra
  simp [generate_variations, runVariations] at hcontra

/-- C8: the sequence of rendered variations is a deterministic function
of the render procedure and the count alone: because every iteration
reseeds with `i·1000 + 42`, the result does not even depend on the
ambient random state, so two runs with the same inputs (and in
particular the same external random seed) produce identical
sequences. -/
theorem C8_variation_sequence_deterministic {σ E Img : Type}
    (render : σ → Except E Img × σ) (seedState : ℕ → σ) (count : ℕ)
    (s0 s1 : σ) :
    (generate_variations render seedState count s0).1 =
      (generate_variations render seedState count s1).1 := by
  rw [generate_variations_fst, generate_variations_fst]

/-- C9 counterexample to the claim as stated: shape (0, 5) has a
non-positive dimension, yet `gradient_noise` is not rejected with a
fatal InvalidShape error — it runs and returns the empty field. -/
theorem C9_zero_shape_not_rejected :
    gradient_noise 0 5 (fun _ _ => 0) = .ok [] ∧
    ¬ ∃ e, gradient_noise 0 5 (fun _ _ => 0) = .error e := by
  have hok : gradient_noise 0 5 (fun _ _ => 0) = .ok [] := rfl
  refine ⟨hok, ?_⟩
  rintro ⟨e, he⟩
  rw [hok] at he
  exact Except.noConfusion he

/-- C9 (amended): the noise entry points perform no positivity
validation — `gradient_noise` runs successfully on every non-negative
shape, including degenerate zero shapes (returning an empty field),
and a negative dimension fails only incidentally inside
`np.random.randn` (numpy's own `ValueError`), after the coordinate
arrays were already built, not with a dedicated InvalidShape check
before allocation. -/
theorem C9_no_shape_validation (height width : ℤ) (jit : ℕ → ℕ → ℚ) :
    ((∃ f, gradient_noise height width jit = .ok f) ↔
      0 ≤ height ∧ 0 ≤ width) ∧
    (height < 0 ∨ width < 0 →
      gradient_noise height width jit =
        .error "negative dimensions are not allowed") := by
  unfold gradient_noise
  by_cases hneg : height < 0 ∨ width < 0
  · rw [if_pos hneg]
    refine ⟨⟨?_, ?_⟩, fun _ => rfl⟩
    · rintro ⟨f, hf⟩
      exact Except.noConfusion hf
    · rintro ⟨h0, w0⟩
      omega
  · rw [if_neg hneg]
    push_neg at hneg
    refine ⟨⟨fun _ => ⟨hneg.1, hneg.2⟩, fun _ => ⟨_, rfl⟩⟩, fun hcon => ?_⟩
    rcases hcon with hc | hc
    · exact absurd hc (by omega)
    · exact absurd hc (by omega)

/-- Witness for C9 (amended) at a concrete negative shape. -/
theorem C9_no_shape_validation_witness :
    gradient_noise (-1) 5 (fun _ _ => 0) =
      .error "negative dimensions are not allowed" :=
  (C9_no_shape_validation (-1) 5 (fun _ _ => 0)).2 (Or.inl (by norm_num))

/-- C10: on a positive image whose height or width is below 3 pixels,
the coarse grain layer is empty (`height//3` or `width//3` is 0) and
cannot be broadcast onto the image, so `add_grain` raises instead of
returning a grained image; the render pipeline calls `add_grain`
unconditionally, so the full render fails with it. -/
theorem C10_add_grain_raises_below_three (height width : ℕ) (img : Img8)
    (intensity : ℚ) (coarse fine : ℕ → ℕ → ℚ)
    (hh : 1 ≤ height) (hw : 1 ≤ width)
    (hsmall : height < 3 ∨ width < 3) :
    ∃ e, add_grain height width img intensity coarse fine = .error e := by
  unfold add_grain
  rcases hsmall with hs | hs
  · have hgh : min (3 * (height / 3)) height = 0 := by omega
    simp only [hgh]
    interval_cases height
    · cases hb : bdim width (min (3 * (width / 3)) width) with
      | none =>
        exact ⟨"operands could not be broadcast together",
          by simp [bdim]⟩
      | some r2 =>
        exact ⟨"could not broadcast input array into output shape",
          by simp [bdim]⟩
    · cases hb : bdim width (min (3 * (width / 3)) width) with
      | none =>
        exact ⟨"operands could not be broadcast together",
          by simp [bdim]⟩
      | some r2 =>
        exact ⟨"operands could not be broadcast together",
          by simp [bdim]⟩
  · have hgw : min (3 * (width / 3)) width = 0 := by omega
    simp only [hgw]
    cases hbh : bdim height (min (3 * (height / 3)) height) with
    | none =>
      exact ⟨"operands could not be broadcast together",
        by simp [bdim]⟩
    | some rh =>
      interval_cases width
      · exact ⟨"could not broadcast input array into output shape",
          by simp [bdim]⟩
      · exact ⟨"operands could not be broadcast together",
          by simp [bdim]⟩

/-- Witness for C10: a 2×10 black image with intensity 0.1 and zero
grain draws. -/
theorem C10_add_grain_raises_below_three_witness :
    ∃ e, add_grain 2 10 (fun _ _ => (0, 0, 0)) (1/10)
      (fun _ _ => 0) (fun _ _ => 0) = .error e :=
  C10_add_grain_raises_below_three 2 10 (fun _ _ => (0, 0, 0)) (1/10)
    (fun _ _ => 0) (fun _ _ => 0) (by norm_num) (by norm_num)
    (Or.inl (by norm_num))

/-- C2: the claim says each reaction-diffusion update computes the
diffusion term with the weighted 3×3 kernel (corners 0.05, edges 0.2,
center −1).  The code instead computes the unweighted 5-point Laplacian:
on a 3×3 activator field with a single unit concentration at the center,
the code's Laplacian at the center is −4, while the claimed kernel gives
−1; consequently one update step with `feed = 0.055`, `kill = 0.062`
drives the center activator to 0, whereas the claimed kernel would leave
it saturated at 1. -/
theorem C2_laplacian_is_unweighted_five_point :
    laplacian centerB 3 3 1 1 = -4 ∧
    kernelLaplacian centerB 3 3 1 1 = -1 ∧
    (rdStep onesA centerB 3 3 (11/200) (31/500)).2 1 1 = 0 := by
  refine ⟨?_, ?_, ?_⟩ <;>
    norm_num [laplacian, kernelLaplacian, rdStep, padEdge, centerB, onesA, pyclip]

end Cue

